import Mathlib

/-!
Verification of the legal-case extraction and RAG pipeline.

This file gives a shallow embedding, in Lean 4, of the parts of the
repository that the specification talks about:

- `src/qctext.py`: the extraction worker (`process_case_worker`), the
  response parser of `LegalCaseProcessor.extract_data_for_single_case`,
  the scheduler (`run_processing`) and the repair pass
  (`run_verification_and_repair`);
- `src/vector_creation.py`: `ChromaDBManager.is_id_exist` and
  `ChromaDBManager.add_data`;
- `src/chatbot_app.py`: `LegalMemoGenerator.generate_memo`.

Strings are modelled as `List Char`.  Python regular expressions that the
code compiles (`.*?\d+/\d{4}`, `(\d+/\d{4})`, `\{.*\}` with DOTALL and the
spec pattern `^[^\d]*\d+/\d{4}$`) are embedded as decidable matching
functions over character lists; `\d` is modelled by the ASCII digits that
occur in docket identifiers.  JSON values are modelled by an inductive
type, with objects as association lists with unique keys, exactly the
shape `json.loads` and `json.dump` exchange.  The LLM and the vector
store are external collaborators; they enter the model as function
parameters or explicit inputs.
-/

namespace LegalPipeline

/-- Characters of a Python `str`, modelled as a list of characters. -/
abbrev Chars := List Char

/-- Model of the regex class `\d`, restricted to the ASCII digits used by
docket identifiers. -/
def isDigitC (c : Char) : Bool := '0' ≤ c && c ≤ '9'

/-- Model of the whitespace characters removed by Python `str.strip()`
(the ASCII whitespace set). -/
def isSpaceC (c : Char) : Bool :=
  c = ' ' || c = '\t' || c = '\n' || c = '\r' || c = '\x0b' || c = '\x0c'

/-! ## JSON values

`json.loads` returns nested dictionaries, lists, strings, numbers,
booleans and null.  Dictionaries have unique keys (on duplicate keys the
later binding wins while parsing, so the resulting dict is key-unique);
objects are association lists built with `jset`, which preserves that
uniqueness.  Numbers are kept as their source lexeme: no claim of the
specification depends on numeric semantics. -/

inductive JsonVal : Type where
  | null : JsonVal
  | bool (b : Bool) : JsonVal
  | num (lexeme : Chars) : JsonVal
  | str (s : Chars) : JsonVal
  | arr (elems : List JsonVal) : JsonVal
  | obj (fields : List (Chars × JsonVal)) : JsonVal

/-- Dictionary lookup, `d.get(k)` on a key-unique dict. -/
def jget (fields : List (Chars × JsonVal)) (k : Chars) : Option JsonVal :=
  (fields.find? (fun p => p.1 = k)).map (fun p => p.2)

/-- Dictionary assignment `d[k] = v`: replaces the binding of `k` in
place when present, appends it otherwise (CPython dict semantics). -/
def jset (fields : List (Chars × JsonVal)) (k : Chars) (v : JsonVal) :
    List (Chars × JsonVal) :=
  match fields with
  | [] => [(k, v)]
  | (k0, v0) :: rest =>
    if k0 = k then (k, v) :: rest else (k0, v0) :: jset rest k v

/-! ## The docket-number patterns

`src/qctext.py` compiles `re.compile(r'.*?\d+/\d{4}')` and uses it with
`fullmatch` (worker line 180, repair line 301).  A string fullmatches it
iff it splits as `prefix ++ digits ++ '/' ++ four digits` where the
prefix contains no newline (`.` does not match a newline) and the four
digits end the string.  The specification instead states the pattern
`^[^\d]*\d+/\d{4}$`, whose prefix must contain no digit but may contain
newlines.  Both are embedded below. -/

/-- Does `cs` consist of one or more digits, a slash, and exactly four
digits?  This is the part both patterns share after their prefix. -/
def matchTail (cs : Chars) : Bool :=
  match cs.dropWhile isDigitC with
  | '/' :: y =>
    decide (cs.takeWhile isDigitC ≠ []) && decide (y.length = 4) && y.all isDigitC
  | _ => false

/-- Fullmatch of the pattern `.*?\d+/\d{4}` compiled by the code
(`case_number_pattern` in the worker, `validation_pattern` in the repair
pass): some prefix free of newlines, then digits, a slash and a four
digit year ending the string. -/
def codePatternMatch (cs : Chars) : Bool :=
  (List.range (cs.length + 1)).any (fun i =>
    (cs.take i).all (fun c => c ≠ '\n') && matchTail (cs.drop i))

/-- Fullmatch of the pattern `^[^\d]*\d+/\d{4}$` that the specification
states: a prefix containing no digit, then digits, a slash and a four
digit year ending the string. -/
def specPatternMatch (cs : Chars) : Bool :=
  (List.range (cs.length + 1)).any (fun i =>
    (cs.take i).all (fun c => !isDigitC c) && matchTail (cs.drop i))

/-! ## Searching for the provisional identifier

`case_id_pattern = re.compile(r'(\d+/\d{4})')` is used with `search`:
the leftmost position where a maximal digit run is followed by a slash
and at least four digits yields the match `digits ++ '/' ++ first four
digits`. -/

/-- Attempt to match `\d+/\d{4}` at the head of `cs`. -/
def matchDocketAt (cs : Chars) : Option Chars :=
  match cs.dropWhile isDigitC with
  | '/' :: rest =>
    if cs.takeWhile isDigitC ≠ [] ∧ (rest.take 4).length = 4 ∧
        (rest.take 4).all isDigitC then
      some (cs.takeWhile isDigitC ++ '/' :: rest.take 4)
    else none
  | _ => none

/-- `re.search(r'(\d+/\d{4})', cs)`: the leftmost match, if any. -/
def firstDocket : Chars → Option Chars
  | [] => none
  | c :: rest =>
    match matchDocketAt (c :: rest) with
    | some m => some m
    | none => firstDocket rest

/-! ## Python string operations -/

/-- Fuel-indexed worker for `str.replace`: replaces non-overlapping
occurrences of `old` left to right.  The fuel is at least the length of
the subject string, which bounds the recursion. -/
def pyReplaceAux : Nat → Chars → Chars → Chars → Chars
  | 0, s, _, _ => s
  | _ + 1, [], _, _ => []
  | fuel + 1, c :: rest, old, new =>
    if !old.isEmpty && old.isPrefixOf (c :: rest) then
      new ++ pyReplaceAux fuel ((c :: rest).drop old.length) old new
    else
      c :: pyReplaceAux fuel rest old new

/-- Python `s.replace(old, new)` for a non-empty `old`. -/
def pyReplace (s old new : Chars) : Chars :=
  pyReplaceAux s.length s old new

/-- Python `s.strip()`: remove leading and trailing whitespace. -/
def pyStrip (cs : Chars) : Chars :=
  ((cs.dropWhile isSpaceC).reverse.dropWhile isSpaceC).reverse

/-- The characters of the literal `".json"`. -/
def jsonExt : Chars := '.' :: 'j' :: 's' :: 'o' :: 'n' :: []

/-- The key `"case_number"` as a character list. -/
def cnKey : Chars := "case_number".data

/-! ## A model of `json.loads`

Recursive-descent parser over character lists, faithful to the JSON
grammar accepted by `json.loads`: the four JSON whitespace characters,
strict number syntax, string escapes (including `\uXXXX`), and rejection
of trailing data after the top-level value.  The recursion is bounded by
an explicit fuel, which `jsonParse` sets generously above the nesting
depth any input can reach. -/

/-- The whitespace characters `json.loads` skips between tokens. -/
def isJsonWs (c : Char) : Bool :=
  c = ' ' || c = '\t' || c = '\n' || c = '\r'

/-- Skip JSON whitespace. -/
def skipWs (cs : Chars) : Chars := cs.dropWhile isJsonWs

/-- Value of one hexadecimal digit, if the character is one. -/
def hexVal (c : Char) : Option Nat :=
  if '0' ≤ c ∧ c ≤ '9' then some (c.toNat - '0'.toNat)
  else if 'a' ≤ c ∧ c ≤ 'f' then some (c.toNat - 'a'.toNat + 10)
  else if 'A' ≤ c ∧ c ≤ 'F' then some (c.toNat - 'A'.toNat + 10)
  else none

/-- Decode the four hex digits of a `\uXXXX` escape. -/
def hex4 (cs : Chars) : Option (Char × Chars) :=
  match cs with
  | a :: b :: c :: d :: rest =>
    match hexVal a, hexVal b, hexVal c, hexVal d with
    | some x, some y, some z, some w =>
      some (Char.ofNat (((x * 16 + y) * 16 + z) * 16 + w), rest)
    | _, _, _, _ => none
  | _ => none

/-- Parse the body of a JSON string literal after the opening quote,
decoding escape sequences; rejects raw control characters as
`json.loads` does in strict mode. -/
def parseStringBody : Nat → Chars → Option (Chars × Chars)
  | 0, _ => none
  | _ + 1, [] => none
  | fuel + 1, c :: rest =>
    if c = '"' then some ([], rest)
    else if c = '\\' then
      match rest with
      | [] => none
      | e :: rest2 =>
        let dec : Option (Char × Chars) :=
          if e = '"' then some ('"', rest2)
          else if e = '\\' then some ('\\', rest2)
          else if e = '/' then some ('/', rest2)
          else if e = 'b' then some ('\x08', rest2)
          else if e = 'f' then some ('\x0c', rest2)
          else if e = 'n' then some ('\n', rest2)
          else if e = 'r' then some ('\r', rest2)
          else if e = 't' then some ('\t', rest2)
          else if e = 'u' then hex4 rest2
          else none
        match dec with
        | some (ch, rest3) =>
          match parseStringBody fuel rest3 with
          | some (s, rem) => some (ch :: s, rem)
          | none => none
        | none => none
    else if c.toNat < 32 then none
    else
      match parseStringBody fuel rest with
      | some (s, rem) => some (c :: s, rem)
      | none => none

/-- Parse a JSON number lexeme: optional minus, an integer part without
leading zeros, an optional fraction and an optional exponent. -/
def parseNumber (cs : Chars) : Option (Chars × Chars) :=
  let (neg, cs1) :=
    match cs with
    | '-' :: rest => (['-'], rest)
    | _ => (([] : Chars), cs)
  match cs1 with
  | [] => none
  | c :: rest =>
    if c = '0' ∨ ('1' ≤ c ∧ c ≤ '9' ∧ True) then
      let intRest := if c = '0' then ([], rest)
        else (rest.takeWhile isDigitC, rest.dropWhile isDigitC)
      let intPart := c :: intRest.1
      let afterInt := intRest.2
      let (fracPart, afterFrac) :=
        match afterInt with
        | '.' :: d :: ds =>
          if isDigitC d then
            ('.' :: d :: ds.takeWhile isDigitC, ds.dropWhile isDigitC)
          else (([] : Chars), afterInt)
        | _ => (([] : Chars), afterInt)
      if fracPart.isEmpty &&
          (match afterInt with | '.' :: _ => true | _ => false) then
        none
      else
        let (expPart, afterExp) :=
          match afterFrac with
          | e :: tl =>
            if e = 'e' ∨ e = 'E' then
              match tl with
              | s :: d :: ds =>
                if (s = '+' ∨ s = '-') ∧ isDigitC d then
                  (e :: s :: d :: ds.takeWhile isDigitC, ds.dropWhile isDigitC)
                else if isDigitC s then
                  (e :: s :: (d :: ds).takeWhile isDigitC,
                   (d :: ds).dropWhile isDigitC)
                else ([], afterFrac)
              | [s] => if isDigitC s then ([e, s], []) else ([], afterFrac)
              | [] => ([], afterFrac)
            else ([], afterFrac)
          | [] => ([], afterFrac)
        if (match afterFrac with
            | e :: _ => (e = 'e' || e = 'E') && expPart.isEmpty
            | [] => false) then none
        else some (neg ++ intPart ++ fracPart ++ expPart, afterExp)
    else none

mutual

/-- Parse one JSON value at the head of `cs` (whitespace already
skipped), returning the value and the unconsumed rest. -/
def parseValue : Nat → Chars → Option (JsonVal × Chars)
  | 0, _ => none
  | _ + 1, [] => none
  | fuel + 1, c :: rest =>
    if c = 'n' then
      match rest with
      | 'u' :: 'l' :: 'l' :: rem => some (.null, rem)
      | _ => none
    else if c = 't' then
      match rest with
      | 'r' :: 'u' :: 'e' :: rem => some (.bool true, rem)
      | _ => none
    else if c = 'f' then
      match rest with
      | 'a' :: 'l' :: 's' :: 'e' :: rem => some (.bool false, rem)
      | _ => none
    else if c = '"' then
      match parseStringBody (fuel + 1) rest with
      | some (s, rem) => some (.str s, rem)
      | none => none
    else if c = '{' then
      match skipWs rest with
      | '}' :: rem => some (.obj [], rem)
      | other => parseMembers fuel other []
    else if c = '[' then
      match skipWs rest with
      | ']' :: rem => some (.arr [], rem)
      | other => parseElements fuel other []
    else if c = '-' ∨ isDigitC c then
      match parseNumber (c :: rest) with
      | some (lex, rem) => some (.num lex, rem)
      | none => none
    else none

/-- Parse the members of an object after `{` (at least one member
remains), accumulating bindings with dict assignment semantics. -/
def parseMembers (fuel : Nat) (cs : Chars) (acc : List (Chars × JsonVal)) :
    Option (JsonVal × Chars) :=
  match fuel with
  | 0 => none
  | fuel + 1 =>
    match cs with
    | '"' :: rest =>
      match parseStringBody (fuel + 1) rest with
      | some (key, afterKey) =>
        match skipWs afterKey with
        | ':' :: afterColon =>
          match parseValue fuel (skipWs afterColon) with
          | some (v, afterVal) =>
            let acc2 := jset acc key v
            match skipWs afterVal with
            | ',' :: afterComma => parseMembers fuel (skipWs afterComma) acc2
            | '}' :: rem => some (.obj acc2, rem)
            | _ => none
          | none => none
        | _ => none
      | none => none
    | _ => none

/-- Parse the elements of an array after `[` (at least one element
remains). -/
def parseElements (fuel : Nat) (cs : Chars) (acc : List JsonVal) :
    Option (JsonVal × Chars) :=
  match fuel with
  | 0 => none
  | fuel + 1 =>
    match parseValue fuel cs with
    | some (v, afterVal) =>
      match skipWs afterVal with
      | ',' :: afterComma => parseElements fuel (skipWs afterComma) (acc ++ [v])
      | ']' :: rem => some (.arr (acc ++ [v]), rem)
      | _ => none
    | none => none

end

/-- Model of `json.loads`: parse exactly one value, allowing surrounding
whitespace, rejecting anything else trailing. -/
def jsonParse (cs : Chars) : Option JsonVal :=
  match parseValue (4 * cs.length + 4) (skipWs cs) with
  | some (v, rest) => if skipWs rest = [] then some v else none
  | none => none

/-! ## Locating the JSON block in an LLM response

`extract_data_for_single_case` runs
`re.search(r'\{.*\}', llm_response_str, re.DOTALL)`: with a greedy `.*`
under DOTALL, the match — when one exists — spans from the first `'{'`
of the response to the last `'}'` after it. -/

/-- Index of the first `'{'`. -/
def firstBrace : Chars → Option Nat
  | [] => none
  | c :: rest =>
    if c = '{' then some 0 else (firstBrace rest).map (fun i => i + 1)

/-- Index of the last `'}'`. -/
def lastClose : Chars → Option Nat
  | [] => none
  | c :: rest =>
    match lastClose rest with
    | some i => some (i + 1)
    | none => if c = '}' then some 0 else none

/-- The text matched by `re.search(r'\{.*\}', cs, re.DOTALL)`. -/
def regexJsonSpan (cs : Chars) : Option Chars :=
  match firstBrace cs, lastClose cs with
  | some i, some j =>
    if i < j then some ((cs.drop i).take (j - i + 1)) else none
  | _, _ => none

/-- `LegalCaseProcessor.extract_data_for_single_case`, from the point the
LLM response is available (lines 147 to 156 of `src/qctext.py`): a
falsy response yields `None`; otherwise the `\{.*\}` span is located
and decoded with `json.loads`, any failure yielding `None`.  The LLM
call itself is the external collaborator producing `llm_response`. -/
def extract_data_for_single_case (llm_response : Option Chars) : Option JsonVal :=
  match llm_response with
  | none => none
  | some resp =>
    if resp.isEmpty then none
    else
      match regexJsonSpan resp with
      | none => none
      | some block => jsonParse block

/-! ## The pydantic schema `LegalCase`

`LegalCase.model_validate` on a dict: `document_type` and `case_number`
are required strings; `involved_courts` and `parties` are required lists
of objects each carrying string `name` and `role`; `referenced_laws` is
a required list of strings; the five `_full`/decision text fields are
`Optional[str] = None`, so they may be absent or null but must be
strings when present.  Extra keys are ignored. -/

/-- Is the value a JSON string? -/
def isJStr : JsonVal → Bool
  | .str _ => true
  | _ => false

/-- Does the value validate against the `Court`/`Party` submodel
(an object with string `name` and string `role`)? -/
def isNameRole (v : JsonVal) : Bool :=
  match v with
  | .obj fields =>
    (match jget fields "name".data with | some (.str _) => true | _ => false) &&
    (match jget fields "role".data with | some (.str _) => true | _ => false)
  | _ => false

/-- A required field that must be a string. -/
def reqStr (fields : List (Chars × JsonVal)) (k : Chars) : Bool :=
  match jget fields k with
  | some (.str _) => true
  | _ => false

/-- A required field that must be a list whose elements satisfy `p`. -/
def reqListOf (fields : List (Chars × JsonVal)) (k : Chars)
    (p : JsonVal → Bool) : Bool :=
  match jget fields k with
  | some (.arr xs) => xs.all p
  | _ => false

/-- An `Optional[str] = None` field: absent or null or a string. -/
def optStr (fields : List (Chars × JsonVal)) (k : Chars) : Bool :=
  match jget fields k with
  | none => true
  | some .null => true
  | some (.str _) => true
  | _ => false

/-- `LegalCase.model_validate` on a decoded JSON object: `true` exactly
when validation succeeds. -/
def legalCaseValidate (fields : List (Chars × JsonVal)) : Bool :=
  reqStr fields "document_type".data &&
  reqStr fields cnKey &&
  reqListOf fields "involved_courts".data isNameRole &&
  reqListOf fields "parties".data isNameRole &&
  reqListOf fields "referenced_laws".data isJStr &&
  optStr fields "case_background_full".data &&
  optStr fields "plaintiffs_argument_full".data &&
  optStr fields "defendants_argument_full".data &&
  optStr fields "committee_reasoning_full".data &&
  optStr fields "final_decision".data

/-! ## The extraction worker

`process_case_worker` (lines 159 to 196 of `src/qctext.py`).  The LLM
extraction result enters as a parameter: `json_data` is the decoded
object (`extract_data_for_single_case` only ever returns a decoded
`\{.*\}` block, which is an object when it decodes at all) or `none`
on extraction failure. -/

inductive WStatus : Type where
  | success : WStatus
  | failed : WStatus
  | skipped_no_id : WStatus
deriving DecidableEq

/-- The observable effect of one worker call: its reported status and
the output file it wrote, if any. -/
structure WorkerResult : Type where
  status : WStatus
  written : Option (Chars × JsonVal)

/-- The cross-check of the model-returned `case_number` (lines 177 to
184): when it is a string fullmatching the validation pattern the dict
is kept as is, otherwise `json_data['case_number']` is overwritten with
the provisional identifier `g`. -/
def workerFields (g : Chars) (fields : List (Chars × JsonVal)) :
    List (Chars × JsonVal) :=
  if (match jget fields cnKey with
      | some (.str s) => codePatternMatch s
      | _ => false) then fields
  else jset fields cnKey (.str g)

/-- `process_case_worker` on one segment text and the extraction
result for it. -/
def process_case_worker (single_case_text : Chars)
    (json_data : Option (List (Chars × JsonVal))) : WorkerResult :=
  match firstDocket single_case_text with
  | none => { status := .skipped_no_id, written := none }
  | some g =>
    match json_data with
    | none => { status := .failed, written := none }
    | some fields =>
      if legalCaseValidate (workerFields g fields) then
        { status := .success,
          written := some (pyReplace g ['/'] ['-'] ++ jsonExt,
            .obj (workerFields g fields)) }
      else
        { status := .failed, written := none }

/-! ## The scheduler `run_processing`

Lines 215 to 277 of `src/qctext.py`: the existing-output set is built
from the `.json` filenames of the output directory (when the force flag
is unset), segments are filtered against it, and the survivors are
dispatched; outcome counts are folded after the pool drains.  Dispatch
completes in nondeterministic order, but counting is commutative, so the
fold over submission order below reports the same totals. -/

/-- The transform `filename.replace('.json', '').replace('-', '/')`,
shared by the scheduler (building the existing-output id set) and the
repair pass (deriving the fallback identifier from the filename). -/
def derivedId (fname : Chars) : Chars :=
  pyReplace (pyReplace fname jsonExt []) ['-'] ['/']

/-- The existing-output id set: for each listed filename ending in
`.json`, `filename.replace('.json', '').replace('-', '/')`. -/
def buildExistingIds (files : List Chars) : List Chars :=
  (files.filter (fun f => jsonExt.isSuffixOf f)).map derivedId

/-- The filtering loop over split segments: blank segments are passed
over, segments with no docket match are passed over, segments whose
first docket match is already in the existing set are passed over, and
each survivor is queued stripped. -/
def selectCases (segments : List Chars) (existing : List Chars) : List Chars :=
  segments.filterMap (fun s =>
    if pyStrip s = [] then none
    else
      match firstDocket s with
      | some g => if g ∈ existing then none else some (pyStrip s)
      | none => none)

/-- Aggregate totals and written files of one scheduler run. -/
structure RunTotals : Type where
  success : Nat
  failed : Nat
  skipped_no_id : Nat
  files : List (Chars × JsonVal)

/-- Fold one worker outcome into the totals. -/
def bumpTotals (t : RunTotals) (w : WorkerResult) : RunTotals :=
  { success := t.success + (if w.status = .success then 1 else 0)
    failed := t.failed + (if w.status = .failed then 1 else 0)
    skipped_no_id := t.skipped_no_id + (if w.status = .skipped_no_id then 1 else 0)
    files := t.files ++ w.written.toList }

/-- `run_processing` from the point the corpus is split into segments:
filter against the existing-output set, dispatch each selected segment
to `process_case_worker`, and fold the outcomes.  `extract` is the
external extraction collaborator giving each dispatched text its decoded
LLM object, or `none` on failure. -/
def run_processing (segments : List Chars) (existing : List Chars)
    (extract : Chars → Option (List (Chars × JsonVal))) : RunTotals :=
  (selectCases segments existing).foldl
    (fun t s => bumpTotals t (process_case_worker s (extract s)))
    { success := 0, failed := 0, skipped_no_id := 0, files := [] }

/-! ## The repair pass `run_verification_and_repair`

Lines 279 to 318 of `src/qctext.py`.  A directory is a listing of
filenames with contents; a content of `none` stands for a file whose
bytes fail to decode as JSON (the caught `JSONDecodeError`/`IOError`
branch).  Files not ending in `.json` and the combined artifact are not
examined.  Reading `case_number` from a decoded top-level value that is
not an object raises an uncaught `AttributeError` (`data.get` on a
non-dict), modelled by `Except.error`, which aborts the pass. -/

/-- The combined-artifact filename that the repair pass skips. -/
def combinedName : Chars := "_ALL_CASES_COMBINED.json".data

/-- Is this filename examined by the repair pass? -/
def repairSelects (fname : Chars) : Bool :=
  jsonExt.isSuffixOf fname && fname ≠ combinedName

/-- Repair one decoded file: `data.get("case_number", "")` must be a
string fullmatching the validation pattern, otherwise `case_number` is
overwritten with the filename-derived identifier and the file is
rewritten.  A non-object decoded value has no `.get` and raises. -/
def repairFile (fname : Chars) (v : JsonVal) : Except Unit (JsonVal × Bool) :=
  match v with
  | .obj fields =>
    match (jget fields cnKey).getD (.str []) with
    | .str s =>
      if codePatternMatch s then .ok (.obj fields, false)
      else .ok (.obj (jset fields cnKey (.str (derivedId fname))), true)
    | _ => .ok (.obj (jset fields cnKey (.str (derivedId fname))), true)
  | _ => .error ()

/-- `run_verification_and_repair` over a directory listing: returns the
directory after the pass together with `(valid_count, repaired_count)`,
or aborts when a selected file decodes to a non-object. -/
def run_verification_and_repair :
    List (Chars × Option JsonVal) →
    Except Unit (List (Chars × Option JsonVal) × Nat × Nat)
  | [] => .ok ([], 0, 0)
  | (fname, content) :: rest =>
    if repairSelects fname then
      match content with
      | none =>
        match run_verification_and_repair rest with
        | .ok (d, v, r) => .ok ((fname, none) :: d, v, r)
        | .error e => .error e
      | some j =>
        match repairFile fname j with
        | .error e => .error e
        | .ok (j2, repaired) =>
          match run_verification_and_repair rest with
          | .ok (d, v, r) =>
            if repaired then .ok ((fname, some j2) :: d, v, r + 1)
            else .ok ((fname, some j2) :: d, v + 1, r)
          | .error e => .error e
    else
      match run_verification_and_repair rest with
      | .ok (d, v, r) => .ok ((fname, content) :: d, v, r)
      | .error e => .error e

/-! ## The vector store: `is_id_exist` and `add_data`

`src/vector_creation.py`, lines 65 to 115.  The store is a list of id
and payload pairs (embedding, document and metadata are the payload,
whose contents no claim inspects, so it stays a type parameter).  The
loop of `add_data` checks each incoming id against the store as it was
before the call; the batch of unseen records is appended in one
`collection.add`, and nothing is added when the batch is empty. -/

/-- `ChromaDBManager.is_id_exist`. -/
def is_id_exist {α : Type} (store : List (Chars × α)) (doc_id : Chars) : Bool :=
  store.any (fun p => p.1 = doc_id)

/-- `ChromaDBManager.add_data`: returns the store after the call and the
number of records inserted.  The duplicate check consults the store as
it was when the call began; the surviving batch is appended at the end
unless it is empty, in which case `collection.add` is not called. -/
def add_data {α : Type} (store : List (Chars × α)) (records : List (Chars × α)) :
    List (Chars × α) × Nat :=
  if (records.filter (fun r => !is_id_exist store r.1)).isEmpty then (store, 0)
  else (store ++ records.filter (fun r => !is_id_exist store r.1),
    (records.filter (fun r => !is_id_exist store r.1)).length)

/-! ## The memo generator `generate_memo`

`src/chatbot_app.py`, lines 124 to 150.  The retrieval result is the
ChromaDB query answer: per-query lists of documents and aligned
metadata (`none` models a search that raised and returned `None`).  The
LLM is a function parameter; the third component of the result records
whether `get_completion` was invoked.  The prompt text handed to the LLM
is the filled template; its exact wording is immaterial to every claim,
so the template instantiation is modelled as the concatenation of the
context block and the case facts. -/

/-- A ChromaDB query result: `documents` and `metadatas` hold one inner
list per query vector. -/
structure SearchResults : Type where
  documents : List (List Chars)
  metadatas : List (List (List (Chars × Chars)))

/-- The labelled context block built from retrieved documents. -/
def buildContext (docs : List Chars) (metas : List (List (Chars × Chars))) :
    Chars :=
  (docs.zip metas).foldl
    (fun acc dm =>
      acc ++ (((dm.2.find? (fun p => p.1 = cnKey)).map (fun p => p.2)).getD
        "N/A".data) ++ dm.1) []

/-- `LegalMemoGenerator.generate_memo`: returns the memo (or `None`),
the source list, and whether the LLM was invoked. -/
def generate_memo (case_facts : Chars) (search_results : Option SearchResults)
    (llm : Chars → Option Chars) : Option Chars × List Chars × Bool :=
  match search_results with
  | none => (none, [], false)
  | some r =>
    match r.documents with
    | [] => (none, [], false)
    | docs0 :: _ =>
      match docs0 with
      | [] => (none, [], false)
      | _ :: _ =>
        let metas0 := r.metadatas.headD []
        let context := buildContext docs0 metas0
        let final_prompt := context ++ case_facts
        let response := llm final_prompt
        let sources := (docs0.zip metas0).map (fun dm => dm.1.take 250)
        (response, sources, true)

end LegalPipeline

namespace LegalPipeline

/-! Sanity checks on the pattern embeddings (these mirror concrete runs
of the Python regexes). -/

example : codePatternMatch "1234/2567".data = true := by decide

example : codePatternMatch "A.12/2024".data = true := by decide

example : codePatternMatch "12a34/2024".data = true := by decide

example : specPatternMatch "12a34/2024".data = false := by decide

example : specPatternMatch "A.12/2024".data = true := by decide

example : codePatternMatch "abc".data = false := by decide

example : codePatternMatch [] = false := by decide

example : firstDocket "xx 123/2024 yy".data = some "123/2024".data := by decide

example : firstDocket "99/99 123/2024".data = some "123/2024".data := by decide

example : firstDocket "hello".data = none := by decide

example : pyReplace "12/2024".data ['/'] ['-'] = "12-2024".data := by decide

example : pyReplace "12-2024.json".data jsonExt [] = "12-2024".data := by decide

example : pyStrip "  a b  ".data = "a b".data := by decide

/-! ## Character facts -/

theorem isDigitC_ne_slash {c : Char} (h : isDigitC c = true) : c ≠ '/' := by
  rintro rfl; exact absurd h (by decide)

theorem isDigitC_ne_dash {c : Char} (h : isDigitC c = true) : c ≠ '-' := by
  rintro rfl; exact absurd h (by decide)

theorem isDigitC_ne_dot {c : Char} (h : isDigitC c = true) : c ≠ '.' := by
  rintro rfl; exact absurd h (by decide)

theorem isSpaceC_not_digit {c : Char} (h : isSpaceC c = true) : isDigitC c = false := by
  simp only [isSpaceC, Bool.or_eq_true, decide_eq_true_eq] at h
  rcases h with ((((rfl | rfl) | rfl) | rfl) | rfl) | rfl <;> decide

theorem isSpaceC_ne_slash {c : Char} (h : isSpaceC c = true) : c ≠ '/' := by
  simp only [isSpaceC, Bool.or_eq_true, decide_eq_true_eq] at h
  rcases h with ((((rfl | rfl) | rfl) | rfl) | rfl) | rfl <;> decide

/-! ## takeWhile and dropWhile facts -/

theorem takeWhile_all_append {p : Char → Bool} {d : Chars} (l : Chars)
    (hd : ∀ c ∈ d, p c = true) :
    (d ++ l).takeWhile p = d ++ l.takeWhile p := by
  induction d with
  | nil => simp
  | cons c d2 ih =>
    have hc : p c = true := hd c (List.mem_cons_self c d2)
    simp only [List.cons_append, List.takeWhile_cons, hc, if_true]
    rw [ih (fun x hx => hd x (List.mem_cons_of_mem c hx))]

theorem dropWhile_all_append {p : Char → Bool} {d : Chars} (l : Chars)
    (hd : ∀ c ∈ d, p c = true) :
    (d ++ l).dropWhile p = l.dropWhile p := by
  induction d with
  | nil => simp
  | cons c d2 ih =>
    have hc : p c = true := hd c (List.mem_cons_self c d2)
    simp only [List.cons_append, List.dropWhile_cons, hc, if_true]
    exact ih (fun x hx => hd x (List.mem_cons_of_mem c hx))

theorem map_eq_self_of {f : Char → Char} {l : Chars} (h : ∀ c ∈ l, f c = c) :
    l.map f = l := by
  induction l with
  | nil => rfl
  | cons c l2 ih =>
    simp only [List.map_cons, h c (List.mem_cons_self c l2)]
    rw [ih (fun x hx => h x (List.mem_cons_of_mem c hx))]

/-! ## Facts about pyReplace -/

theorem pyReplaceAux_nil (fuel : Nat) (old new : Chars) :
    pyReplaceAux fuel [] old new = [] := by
  cases fuel <;> rfl

theorem pyReplaceAux_singleChar (a b : Char) :
    ∀ (fuel : Nat) (s : Chars), s.length ≤ fuel →
      pyReplaceAux fuel s [a] [b] = s.map (fun c => if c = a then b else c) := by
  intro fuel
  induction fuel with
  | zero =>
    intro s hs
    rw [List.length_eq_zero.mp (Nat.le_zero.mp hs)]
    rfl
  | succ f ih =>
    intro s hs
    cases s with
    | nil => rfl
    | cons c rest =>
      have hrec := ih rest (Nat.le_of_succ_le_succ hs)
      by_cases hc : c = a
      · subst hc
        have hpre : [c].isPrefixOf (c :: rest) = true := by
          simp [List.isPrefixOf]
        simp [pyReplaceAux, hpre, hrec]
      · have hpre : [a].isPrefixOf (c :: rest) = false := by
          simp only [List.isPrefixOf, List.isPrefixOf_nil_left, Bool.and_true,
            beq_eq_false_iff_ne, ne_eq]
          exact fun h => hc h.symm
        simp [pyReplaceAux, hpre, hrec, hc]

theorem pyReplace_singleChar (s : Chars) (a b : Char) :
    pyReplace s [a] [b] = s.map (fun c => if c = a then b else c) :=
  pyReplaceAux_singleChar a b s.length s (Nat.le_refl _)

theorem pyReplaceAux_strip_ext :
    ∀ (fuel : Nat) (h : Chars), h.length + jsonExt.length ≤ fuel →
      (∀ c ∈ h, c ≠ '.') →
      pyReplaceAux fuel (h ++ jsonExt) jsonExt [] = h := by
  intro fuel
  induction fuel with
  | zero => intro h hlen _; simp [jsonExt] at hlen
  | succ f ih =>
    intro h hlen hdot
    cases h with
    | nil =>
      show pyReplaceAux (f + 1) jsonExt jsonExt [] = []
      simp only [jsonExt, pyReplaceAux]
      rw [if_pos (by decide)]
      simp [pyReplaceAux_nil]
    | cons c h2 =>
      have hc : c ≠ '.' := hdot c (List.mem_cons_self c h2)
      have hpre : jsonExt.isPrefixOf (c :: (h2 ++ jsonExt)) = false := by
        simp only [jsonExt, List.isPrefixOf, Bool.and_eq_false_iff,
          beq_eq_false_iff_ne, ne_eq]
        left
        exact fun h => hc h.symm
      have hlen2 : h2.length + jsonExt.length ≤ f := by
        simp only [List.length_cons] at hlen
        omega
      have hrec := ih h2 hlen2 (fun x hx => hdot x (List.mem_cons_of_mem c hx))
      show pyReplaceAux (f + 1) (c :: (h2 ++ jsonExt)) jsonExt [] = c :: h2
      simp [pyReplaceAux, hpre, hrec]

theorem pyReplace_strip_ext {h : Chars} (hdot : ∀ c ∈ h, c ≠ '.') :
    pyReplace (h ++ jsonExt) jsonExt [] = h :=
  pyReplaceAux_strip_ext (h ++ jsonExt).length h (by simp) hdot

/-- The digits-slash-year shape of a provisional docket identifier. -/
def DocketShape (g : Chars) : Prop :=
  ∃ d y, g = d ++ '/' :: y ∧ d ≠ [] ∧ (∀ c ∈ d, isDigitC c = true) ∧
    y.length = 4 ∧ (∀ c ∈ y, isDigitC c = true)

/-- Reversing the filesystem-safe transform and stripping the `.json`
extension recovers the docket identifier the filename was built from. -/
theorem derivedId_filename {g : Chars} (hg : DocketShape g) :
    derivedId (pyReplace g ['/'] ['-'] ++ jsonExt) = g := by
  obtain ⟨d, y, rfl, hd, hdd, hy, hyd⟩ := hg
  rw [pyReplace_singleChar]
  have hmap1 : (d ++ '/' :: y).map (fun c => if c = '/' then '-' else c) =
      d ++ '-' :: y := by
    rw [List.map_append, List.map_cons, if_pos rfl,
      map_eq_self_of (fun c hc => if_neg (isDigitC_ne_slash (hdd c hc))),
      map_eq_self_of (fun c hc => if_neg (isDigitC_ne_slash (hyd c hc)))]
  rw [hmap1]
  unfold derivedId
  rw [pyReplace_strip_ext (by
    intro c hc
    rcases List.mem_append.mp hc with h1 | h1
    · exact isDigitC_ne_dot (hdd c h1)
    · rcases List.mem_cons.mp h1 with rfl | h2
      · decide
      · exact isDigitC_ne_dot (hyd c h2))]
  rw [pyReplace_singleChar, List.map_append, List.map_cons, if_pos rfl,
    map_eq_self_of (fun c hc => if_neg (isDigitC_ne_dash (hdd c hc))),
    map_eq_self_of (fun c hc => if_neg (isDigitC_ne_dash (hyd c hc)))]

/-! ## Facts about the docket search and the patterns -/

theorem matchDocketAt_shape {cs g : Chars} (h : matchDocketAt cs = some g) :
    DocketShape g := by
  unfold matchDocketAt at h
  split at h
  · next rest heq =>
    split at h
    · next hcond =>
      obtain ⟨hd, hy, hyd⟩ := hcond
      exact ⟨cs.takeWhile isDigitC, rest.take 4, (Option.some.inj h).symm, hd,
        fun c hc => List.mem_takeWhile_imp hc, hy,
        fun c hc => List.all_eq_true.mp hyd c hc⟩
    · exact absurd h (by simp)
  · exact absurd h (by simp)

theorem firstDocket_shape {cs g : Chars} (h : firstDocket cs = some g) :
    DocketShape g := by
  induction cs with
  | nil => simp [firstDocket] at h
  | cons c rest ih =>
    unfold firstDocket at h
    split at h
    · next m heq => exact matchDocketAt_shape (heq.trans (congrArg some (Option.some.inj h)))
    · exact ih h

theorem matchTail_shape {d y : Chars} (hd : d ≠ [])
    (hdd : ∀ c ∈ d, isDigitC c = true) (hy : y.length = 4)
    (hyd : ∀ c ∈ y, isDigitC c = true) :
    matchTail (d ++ '/' :: y) = true := by
  unfold matchTail
  rw [takeWhile_all_append _ hdd, dropWhile_all_append _ hdd]
  have h1 : ('/' :: y).takeWhile isDigitC = [] := by
    simp [List.takeWhile_cons, isDigitC]
  have h2 : ('/' :: y).dropWhile isDigitC = '/' :: y := by
    simp [List.dropWhile_cons, isDigitC]
  rw [h1, h2]
  simp only [List.all_eq_true, hy, hd, List.append_nil, ne_eq,
    decide_eq_true_eq, Bool.and_eq_true, decide_not]
  refine ⟨⟨?_, trivial⟩, hyd⟩
  simp [hd]

theorem codePatternMatch_of_shape {g : Chars} (hg : DocketShape g) :
    codePatternMatch g = true := by
  obtain ⟨d, y, rfl, hd, hdd, hy, hyd⟩ := hg
  unfold codePatternMatch
  rw [List.any_eq_true]
  refine ⟨0, by simp, ?_⟩
  simp [matchTail_shape hd hdd hy hyd]

theorem specPatternMatch_of_shape {g : Chars} (hg : DocketShape g) :
    specPatternMatch g = true := by
  obtain ⟨d, y, rfl, hd, hdd, hy, hyd⟩ := hg
  unfold specPatternMatch
  rw [List.any_eq_true]
  refine ⟨0, by simp, ?_⟩
  simp [matchTail_shape hd hdd hy hyd]

/-! ## The docket search is unaffected by stripping whitespace -/

theorem takeWhile_digit_allspace {w : Chars} (hw : ∀ c ∈ w, isSpaceC c = true) :
    w.takeWhile isDigitC = [] := by
  cases w with
  | nil => rfl
  | cons c w2 =>
    simp [List.takeWhile_cons,
      isSpaceC_not_digit (hw c (List.mem_cons_self c w2))]

theorem dropWhile_digit_allspace {w : Chars} (hw : ∀ c ∈ w, isSpaceC c = true) :
    w.dropWhile isDigitC = w := by
  cases w with
  | nil => rfl
  | cons c w2 =>
    simp [List.dropWhile_cons,
      isSpaceC_not_digit (hw c (List.mem_cons_self c w2))]

theorem takeWhile_digit_append_ws {w : Chars} (hw : ∀ c ∈ w, isSpaceC c = true)
    (x : Chars) : (x ++ w).takeWhile isDigitC = x.takeWhile isDigitC := by
  rw [List.takeWhile_append]
  split
  · next hlen =>
    rw [takeWhile_digit_allspace hw, List.append_nil]
    exact ((List.takeWhile_prefix _).eq_of_length hlen).symm
  · rfl

theorem dropWhile_digit_append_ws {w : Chars} (hw : ∀ c ∈ w, isSpaceC c = true)
    (x : Chars) : (x ++ w).dropWhile isDigitC = x.dropWhile isDigitC ++ w := by
  rw [List.dropWhile_append]
  split
  · next hemp =>
    rw [dropWhile_digit_allspace hw, List.isEmpty_iff.mp hemp, List.nil_append]
  · rfl

theorem matchDocketAt_append_ws {w : Chars} (hw : ∀ c ∈ w, isSpaceC c = true)
    (x : Chars) : matchDocketAt (x ++ w) = matchDocketAt x := by
  unfold matchDocketAt
  rw [dropWhile_digit_append_ws hw, takeWhile_digit_append_ws hw]
  cases hr : x.dropWhile isDigitC with
  | nil =>
    simp only [List.nil_append]
    cases w with
    | nil => rfl
    | cons c w2 =>
      have hcs : c ≠ '/' := isSpaceC_ne_slash (hw c (List.mem_cons_self c w2))
      split
      · next rest heq => exact absurd (List.cons.inj heq).1 hcs
      · rfl
  | cons c rest =>
    by_cases hc : c = '/'
    · subst hc
      simp only [List.cons_append]
      by_cases hlen : 4 ≤ rest.length
      · have htake : (rest ++ w).take 4 = rest.take 4 := by
          rw [List.take_append_eq_append_take, Nat.sub_eq_zero_of_le hlen,
            List.take_zero, List.append_nil]
        rw [htake]
      · push_neg at hlen
        have hrest : rest.take 4 = rest :=
          List.take_of_length_le (Nat.le_of_lt hlen)
        have hrhs : ¬ (x.takeWhile isDigitC ≠ [] ∧ (rest.take 4).length = 4 ∧
            (rest.take 4).all isDigitC = true) := by
          rintro ⟨-, h4, -⟩
          rw [hrest] at h4
          omega
        rw [if_neg hrhs]
        cases w with
        | nil => rw [List.append_nil, if_neg hrhs]
        | cons cw w2 =>
          have hlhs : ¬ (x.takeWhile isDigitC ≠ [] ∧
              ((rest ++ cw :: w2).take 4).length = 4 ∧
              ((rest ++ cw :: w2).take 4).all isDigitC = true) := by
            rintro ⟨-, -, hall⟩
            have hmem : cw ∈ (rest ++ cw :: w2).take 4 := by
              rw [List.take_append_eq_append_take, hrest]
              refine List.mem_append_right _ ?_
              have h1 : 1 ≤ 4 - rest.length := by omega
              cases hk : 4 - rest.length with
              | zero => omega
              | succ k => exact List.mem_of_mem_head? rfl
            have := List.all_eq_true.mp hall cw hmem
            rw [isSpaceC_not_digit (hw cw (List.mem_cons_self cw w2))] at this
            exact Bool.false_ne_true this
          rw [if_neg hlhs]
    · simp only [List.cons_append]
      split
      · next rest2 heq => exact absurd (List.cons.inj heq).1 hc
      · split
        · next rest2 heq => exact absurd (List.cons.inj heq).1 hc
        · rfl

theorem firstDocket_cons (c : Char) (rest : Chars) :
    firstDocket (c :: rest) =
      match matchDocketAt (c :: rest) with
      | some m => some m
      | none => firstDocket rest := rfl

theorem firstDocket_allspace {w : Chars} (hw : ∀ c ∈ w, isSpaceC c = true) :
    firstDocket w = none := by
  induction w with
  | nil => rfl
  | cons c w2 ih =>
    have h0 : matchDocketAt (c :: w2) = none := by
      have := matchDocketAt_append_ws hw ([] : Chars)
      rw [List.nil_append] at this
      rw [this]
      rfl
    unfold firstDocket
    rw [h0]
    exact ih (fun x hx => hw x (List.mem_cons_of_mem c hx))

theorem firstDocket_ws_prefix {w : Chars} (hw : ∀ c ∈ w, isSpaceC c = true)
    (t : Chars) : firstDocket (w ++ t) = firstDocket t := by
  induction w with
  | nil => rfl
  | cons c w2 ih =>
    have hc := hw c (List.mem_cons_self c w2)
    have h0 : matchDocketAt (c :: (w2 ++ t)) = none := by
      unfold matchDocketAt
      have hdw : (c :: (w2 ++ t)).dropWhile isDigitC = c :: (w2 ++ t) := by
        simp [List.dropWhile_cons, isSpaceC_not_digit hc]
      rw [hdw]
      split
      · next rest heq =>
        exact absurd (List.cons.inj heq).1 (isSpaceC_ne_slash hc)
      · rfl
    show firstDocket (c :: (w2 ++ t)) = firstDocket t
    rw [firstDocket_cons, h0]
    exact ih (fun x hx => hw x (List.mem_cons_of_mem c hx))

theorem firstDocket_append_ws {w : Chars} (hw : ∀ c ∈ w, isSpaceC c = true)
    (u : Chars) : firstDocket (u ++ w) = firstDocket u := by
  induction u with
  | nil => rw [List.nil_append, firstDocket_allspace hw]; rfl
  | cons c u2 ih =>
    show firstDocket ((c :: u2) ++ w) = firstDocket (c :: u2)
    rw [List.cons_append]
    unfold firstDocket
    have hm : matchDocketAt (c :: (u2 ++ w)) = matchDocketAt (c :: u2) := by
      have := matchDocketAt_append_ws hw (c :: u2)
      rwa [List.cons_append] at this
    rw [hm]
    cases matchDocketAt (c :: u2) with
    | some m => rfl
    | none => exact ih

theorem firstDocket_pyStrip (s : Chars) :
    firstDocket (pyStrip s) = firstDocket s := by
  have h1 : firstDocket s = firstDocket (s.dropWhile isSpaceC) := by
    conv_lhs => rw [← List.takeWhile_append_dropWhile (p := isSpaceC) (l := s)]
    exact firstDocket_ws_prefix (fun c hc => List.mem_takeWhile_imp hc) _
  have h2 : s.dropWhile isSpaceC =
      pyStrip s ++ ((s.dropWhile isSpaceC).reverse.takeWhile isSpaceC).reverse := by
    conv_lhs => rw [← List.reverse_reverse (s.dropWhile isSpaceC),
      ← List.takeWhile_append_dropWhile (p := isSpaceC)
        (l := (s.dropWhile isSpaceC).reverse), List.reverse_append]
    rfl
  rw [h1, h2, firstDocket_append_ws (fun c hc => by
    rw [List.mem_reverse] at hc
    exact List.mem_takeWhile_imp hc)]

/-! ## Locating the greedy regex span -/

theorem firstBrace_append {p : Chars} (hp : ∀ c ∈ p, c ≠ '{') (t : Chars) :
    firstBrace (p ++ '{' :: t) = some p.length := by
  induction p with
  | nil => simp [firstBrace]
  | cons c p2 ih =>
    have hc := hp c (List.mem_cons_self c p2)
    show firstBrace (c :: (p2 ++ '{' :: t)) = some (p2.length + 1)
    unfold firstBrace
    rw [if_neg hc, ih (fun x hx => hp x (List.mem_cons_of_mem c hx))]
    rfl

theorem lastClose_none {s : Chars} (hs : ∀ c ∈ s, c ≠ '}') :
    lastClose s = none := by
  induction s with
  | nil => rfl
  | cons c s2 ih =>
    have hc := hs c (List.mem_cons_self c s2)
    unfold lastClose
    rw [ih (fun x hx => hs x (List.mem_cons_of_mem c hx))]
    simp [hc]

theorem lastClose_append {s : Chars} (hs : ∀ c ∈ s, c ≠ '}') (l : Chars) :
    lastClose (l ++ '}' :: s) = some l.length := by
  induction l with
  | nil =>
    show lastClose ('}' :: s) = some 0
    unfold lastClose
    rw [lastClose_none hs]
    simp
  | cons c l2 ih =>
    show lastClose (c :: (l2 ++ '}' :: s)) = some (l2.length + 1)
    unfold lastClose
    rw [ih]

/-! ## Facts about dictionary update -/

theorem jget_jset_self (fields : List (Chars × JsonVal)) (k : Chars) (v : JsonVal) :
    jget (jset fields k v) k = some v := by
  induction fields with
  | nil => simp [jset, jget]
  | cons p rest ih =>
    obtain ⟨k0, v0⟩ := p
    by_cases h : k0 = k
    · subst h
      simp [jset, jget]
    · simp only [jset, if_neg h]
      show jget ((k0, v0) :: jset rest k v) k = some v
      simp only [jget, List.find?_cons, decide_eq_false h]
      exact ih

/-! ## Facts about the worker -/

theorem workerFields_case_number (g : Chars) (fields : List (Chars × JsonVal))
    (hg : DocketShape g) :
    ∃ s, jget (workerFields g fields) cnKey = some (.str s) ∧
      codePatternMatch s = true := by
  unfold workerFields
  split
  · next hvalid =>
    cases hj : jget fields cnKey with
    | none => rw [hj] at hvalid; cases hvalid
    | some v =>
      cases v with
      | str s =>
        rw [hj] at hvalid
        exact ⟨s, rfl, hvalid⟩
      | null => rw [hj] at hvalid; cases hvalid
      | bool b => rw [hj] at hvalid; cases hvalid
      | num l => rw [hj] at hvalid; cases hvalid
      | arr xs => rw [hj] at hvalid; cases hvalid
      | obj fs => rw [hj] at hvalid; cases hvalid
  · exact ⟨g, jget_jset_self fields cnKey (.str g), codePatternMatch_of_shape hg⟩

theorem worker_status_not_skipped {text : Chars}
    {jd : Option (List (Chars × JsonVal))} (h : (firstDocket text).isSome) :
    (process_case_worker text jd).status ≠ .skipped_no_id := by
  obtain ⟨g, hg⟩ := Option.isSome_iff_exists.mp h
  unfold process_case_worker
  rw [hg]
  cases jd with
  | none => simp
  | some fields =>
    by_cases hval : legalCaseValidate (workerFields g fields) = true
    · simp [hval]
    · simp [hval]

/-! ## Facts about schema validation -/

theorem reqListOf_arr {fields : List (Chars × JsonVal)} {k : Chars}
    {p : JsonVal → Bool} (h : reqListOf fields k p = true) :
    ∃ xs, jget fields k = some (.arr xs) := by
  unfold reqListOf at h
  cases hj : jget fields k with
  | none => rw [hj] at h; cases h
  | some v =>
    cases v with
    | arr xs => exact ⟨xs, rfl⟩
    | null => rw [hj] at h; cases h
    | bool b => rw [hj] at h; cases h
    | num l => rw [hj] at h; cases h
    | str s => rw [hj] at h; cases h
    | obj fs => rw [hj] at h; cases h

/-! ## Facts about the repair step -/

theorem repairFile_obj (fname : Chars) (fields : List (Chars × JsonVal)) :
    (∃ s, (jget fields cnKey).getD (.str []) = .str s ∧ codePatternMatch s = true ∧
      repairFile fname (.obj fields) = .ok (.obj fields, false)) ∨
    repairFile fname (.obj fields) =
      .ok (.obj (jset fields cnKey (.str (derivedId fname))), true) := by
  have hred : repairFile fname (.obj fields) =
      match (jget fields cnKey).getD (.str []) with
      | .str s =>
        if codePatternMatch s then .ok (.obj fields, false)
        else .ok (.obj (jset fields cnKey (.str (derivedId fname))), true)
      | _ => .ok (.obj (jset fields cnKey (.str (derivedId fname))), true) := rfl
  rw [hred]
  cases hcur : (jget fields cnKey).getD (.str []) with
  | str s =>
    by_cases hp : codePatternMatch s = true
    · left
      exact ⟨s, rfl, hp, by simp [hp]⟩
    · right
      simp [hp]
  | null => right; rfl
  | bool b => right; rfl
  | num l => right; rfl
  | arr xs => right; rfl
  | obj fs => right; rfl

theorem repairFile_non_object (fname : Chars) (j : JsonVal)
    (h : ∀ fields, j ≠ JsonVal.obj fields) : repairFile fname j = .error () := by
  cases j with
  | obj fields => exact absurd rfl (h fields)
  | null => rfl
  | bool b => rfl
  | num l => rfl
  | str s => rfl
  | arr xs => rfl

theorem repairFile_stable (fname : Chars) (fields : List (Chars × JsonVal))
    (j2 : JsonVal) (b : Bool)
    (hpat : codePatternMatch (derivedId fname) = true)
    (h : repairFile fname (.obj fields) = .ok (j2, b)) :
    repairFile fname j2 = .ok (j2, false) := by
  rcases repairFile_obj fname fields with ⟨s, hcur, hp, heq⟩ | heq
  · rw [heq] at h
    cases h
    exact heq
  · rw [heq] at h
    cases h
    have hred : repairFile fname
        (.obj (jset fields cnKey (.str (derivedId fname)))) =
        match (jget (jset fields cnKey (.str (derivedId fname))) cnKey).getD
            (.str []) with
        | .str s =>
          if codePatternMatch s then
            .ok (.obj (jset fields cnKey (.str (derivedId fname))), false)
          else
            .ok (.obj (jset (jset fields cnKey (.str (derivedId fname))) cnKey
              (.str (derivedId fname))), true)
        | _ =>
          .ok (.obj (jset (jset fields cnKey (.str (derivedId fname))) cnKey
            (.str (derivedId fname))), true) := rfl
    rw [hred, jget_jset_self, Option.getD_some]
    simp [hpat]

/-! ## Facts about the vector store -/

theorem is_id_exist_iff {α : Type} (store : List (Chars × α)) (x : Chars) :
    is_id_exist store x = true ↔ x ∈ store.map Prod.fst := by
  unfold is_id_exist
  rw [List.any_eq_true]
  constructor
  · rintro ⟨p, hp, hpx⟩
    rw [decide_eq_true_eq] at hpx
    exact hpx ▸ List.mem_map_of_mem Prod.fst hp
  · intro hx
    obtain ⟨p, hp, hpe⟩ := List.mem_map.mp hx
    exact ⟨p, hp, by rw [hpe]; simp⟩

theorem add_data_fst {α : Type} (store records : List (Chars × α)) :
    (add_data store records).1 =
      store ++ records.filter (fun r => !is_id_exist store r.1) := by
  unfold add_data
  split
  · next hemp => rw [List.isEmpty_iff.mp hemp, List.append_nil]
  · rfl

/-! ## Facts about the scheduler -/

theorem run_foldl_skipped (tasks : List Chars)
    (extract : Chars → Option (List (Chars × JsonVal))) (t0 : RunTotals)
    (h : ∀ s ∈ tasks, (process_case_worker s (extract s)).status ≠ .skipped_no_id) :
    (tasks.foldl (fun t s => bumpTotals t (process_case_worker s (extract s)))
      t0).skipped_no_id = t0.skipped_no_id := by
  induction tasks generalizing t0 with
  | nil => rfl
  | cons s rest ih =>
    rw [List.foldl_cons, ih _ (fun x hx => h x (List.mem_cons_of_mem s hx))]
    simp [bumpTotals, h s (List.mem_cons_self s rest)]

theorem selectCases_mem {segments existing : List Chars} {t : Chars}
    (ht : t ∈ selectCases segments existing) :
    ∃ s g, s ∈ segments ∧ firstDocket s = some g ∧ t = pyStrip s := by
  unfold selectCases at ht
  rw [List.mem_filterMap] at ht
  obtain ⟨s, hs, hfn⟩ := ht
  by_cases hstrip : pyStrip s = []
  · rw [if_pos hstrip] at hfn; cases hfn
  · rw [if_neg hstrip] at hfn
    cases hf : firstDocket s with
    | none => rw [hf] at hfn; cases hfn
    | some g =>
      rw [hf] at hfn
      have hfn2 : (if g ∈ existing then none else some (pyStrip s)) = some t := hfn
      by_cases hmem : g ∈ existing
      · rw [if_pos hmem] at hfn2; cases hfn2
      · rw [if_neg hmem] at hfn2
        exact ⟨s, g, hs, hf, (Option.some.inj hfn2).symm⟩

theorem process_case_worker_no_id (text : Chars)
    (jd : Option (List (Chars × JsonVal))) (h : firstDocket text = none) :
    process_case_worker text jd = { status := .skipped_no_id, written := none } := by
  unfold process_case_worker; rw [h]

theorem process_case_worker_none_data (text : Chars) (g : Chars)
    (hg : firstDocket text = some g) :
    process_case_worker text none = { status := .failed, written := none } := by
  unfold process_case_worker; rw [hg]

theorem process_case_worker_some (text : Chars) (g : Chars)
    (hg : firstDocket text = some g) (fields : List (Chars × JsonVal)) :
    process_case_worker text (some fields) =
      if legalCaseValidate (workerFields g fields) then
        { status := .success,
          written := some (pyReplace g ['/'] ['-'] ++ jsonExt,
            .obj (workerFields g fields)) }
      else { status := .failed, written := none } := by
  unfold process_case_worker; rw [hg]

/-! # The claims

Each claim of the specification extract is settled below.  A claim that
fails on the code comes with a closed counterexample and a proof of the
nearest statement that does hold. -/

/-- Claim C1 is refuted as stated: the worker accepts any model-returned
`case_number` that fullmatches the pattern the code actually compiles,
`.*?\d+/\d{4}`, whose prefix may itself contain digits.  The string
`12a34/2024` is accepted and persisted verbatim — and the repair pass
later leaves it untouched — yet it does not match the pattern
`^[^\d]*\d+/\d{4}$` the claim states, whose prefix must be digit-free. -/
theorem c1_counterexample_digit_prefix_persisted :
    (process_case_worker "Case 1234/2024 text".data
        (some [("document_type".data, JsonVal.str "d".data),
               (cnKey, JsonVal.str "12a34/2024".data),
               ("involved_courts".data, JsonVal.arr []),
               ("parties".data, JsonVal.arr []),
               ("referenced_laws".data, JsonVal.arr [])])).written =
      some ("1234-2024.json".data,
        JsonVal.obj [("document_type".data, JsonVal.str "d".data),
               (cnKey, JsonVal.str "12a34/2024".data),
               ("involved_courts".data, JsonVal.arr []),
               ("parties".data, JsonVal.arr []),
               ("referenced_laws".data, JsonVal.arr [])]) ∧
    specPatternMatch "12a34/2024".data = false ∧
    repairFile "1234-2024.json".data
        (JsonVal.obj [("document_type".data, JsonVal.str "d".data),
               (cnKey, JsonVal.str "12a34/2024".data),
               ("involved_courts".data, JsonVal.arr []),
               ("parties".data, JsonVal.arr []),
               ("referenced_laws".data, JsonVal.arr [])]) =
      .ok (JsonVal.obj [("document_type".data, JsonVal.str "d".data),
               (cnKey, JsonVal.str "12a34/2024".data),
               ("involved_courts".data, JsonVal.arr []),
               ("parties".data, JsonVal.arr []),
               ("referenced_laws".data, JsonVal.arr [])], false) :=
  ⟨rfl, by decide, rfl⟩

/-- Claim C1 (amended): every record the worker persists, and every
record the repair pass rewrites under a filename whose derived
identifier is pattern-valid (as every worker-created filename is),
stores `case_number` as a string that fully matches the code's
validation pattern `.*?\d+/\d{4}` — which, unlike the pattern the
specification states, allows digits in the prefix. -/
theorem c1_persisted_case_number_matches_code_pattern :
    (∀ text json_data fname content,
      (process_case_worker text json_data).written = some (fname, content) →
      ∃ fields s, content = JsonVal.obj fields ∧
        jget fields cnKey = some (.str s) ∧ codePatternMatch s = true) ∧
    (∀ fname j j2 repaired,
      codePatternMatch (derivedId fname) = true →
      repairFile fname j = .ok (j2, repaired) →
      ∃ fields s, j2 = JsonVal.obj fields ∧
        jget fields cnKey = some (.str s) ∧ codePatternMatch s = true) := by
  constructor
  · intro text json_data fname content hw
    cases hf : firstDocket text with
    | none =>
      rw [process_case_worker_no_id text json_data hf] at hw
      exact Option.noConfusion hw
    | some g =>
      cases json_data with
      | none =>
        rw [process_case_worker_none_data text g hf] at hw
        exact Option.noConfusion hw
      | some fields =>
        rw [process_case_worker_some text g hf fields] at hw
        by_cases hval : legalCaseValidate (workerFields g fields) = true
        · rw [if_pos hval] at hw
          obtain ⟨s, hs, hp⟩ := workerFields_case_number g fields (firstDocket_shape hf)
          have hx := Option.some.inj hw
          have hcontent : JsonVal.obj (workerFields g fields) = content :=
            congrArg Prod.snd hx
          exact ⟨workerFields g fields, s, hcontent.symm, hs, hp⟩
        · rw [if_neg hval] at hw
          exact Option.noConfusion hw
  · intro fname j j2 repaired hpat hrep
    cases j with
    | obj fields =>
      rcases repairFile_obj fname fields with ⟨s, hcur, hp, heq⟩ | heq
      · rw [heq] at hrep
        cases hrep
        cases hj : jget fields cnKey with
        | none =>
          rw [hj] at hcur
          have hse : ([] : Chars) = s := JsonVal.str.inj hcur
          rw [← hse] at hp
          exact absurd hp (by decide)
        | some v =>
          rw [hj, Option.getD_some] at hcur
          subst hcur
          exact ⟨fields, s, rfl, hj, hp⟩
      · rw [heq] at hrep
        cases hrep
        exact ⟨jset fields cnKey (.str (derivedId fname)), derivedId fname, rfl,
          jget_jset_self fields cnKey (.str (derivedId fname)), hpat⟩
    | null => exact absurd hrep (by simp [repairFile])
    | bool b => exact absurd hrep (by simp [repairFile])
    | num l => exact absurd hrep (by simp [repairFile])
    | str s => exact absurd hrep (by simp [repairFile])
    | arr xs => exact absurd hrep (by simp [repairFile])

/-- Witness for C1 (amended): the invariant evaluated at a successful
worker write with a valid model-returned number, and at a repair
rewrite of a record with a missing case number. -/
theorem c1_persisted_case_number_matches_code_pattern_witness :
    (∃ fields s,
      JsonVal.obj [("document_type".data, JsonVal.str "d".data),
        (cnKey, JsonVal.str "7/2024".data),
        ("involved_courts".data, JsonVal.arr []),
        ("parties".data, JsonVal.arr []),
        ("referenced_laws".data, JsonVal.arr [])] = JsonVal.obj fields ∧
      jget fields cnKey = some (.str s) ∧ codePatternMatch s = true) ∧
    (∃ fields s,
      JsonVal.obj [(cnKey, JsonVal.str "7/2024".data)] = JsonVal.obj fields ∧
      jget fields cnKey = some (.str s) ∧ codePatternMatch s = true) := by
  constructor
  · exact c1_persisted_case_number_matches_code_pattern.1 "Case 7/2024 x".data
      (some [("document_type".data, JsonVal.str "d".data),
        (cnKey, JsonVal.str "7/2024".data),
        ("involved_courts".data, JsonVal.arr []),
        ("parties".data, JsonVal.arr []),
        ("referenced_laws".data, JsonVal.arr [])])
      "7-2024.json".data
      (JsonVal.obj [("document_type".data, JsonVal.str "d".data),
        (cnKey, JsonVal.str "7/2024".data),
        ("involved_courts".data, JsonVal.arr []),
        ("parties".data, JsonVal.arr []),
        ("referenced_laws".data, JsonVal.arr [])]) rfl
  · exact c1_persisted_case_number_matches_code_pattern.2 "7-2024.json".data
      (JsonVal.obj []) (JsonVal.obj [(cnKey, JsonVal.str "7/2024".data)]) true
      (by decide) rfl

/-- Claim C2 is refuted as stated: on a response holding two complete
top-level JSON objects, the greedy `\{.*\}` span runs from the first
`'{'` to the last `'}'`, covers both objects, fails to decode, and the
parser returns nothing — although the first complete object on its own
is perfectly valid JSON that the claim says would be returned. -/
theorem c2_counterexample_multiple_objects :
    extract_data_for_single_case (some "\x7b\"a\":1\x7d\x7b\"b\":2\x7d".data) = none ∧
    jsonParse "\x7b\"a\":1\x7d".data =
      some (JsonVal.obj [("a".data, JsonVal.num "1".data)]) :=
  ⟨rfl, rfl⟩

/-- Claim C2 (amended): the parser decodes the single span running from
the first `'{'` of the response to the last `'}'`; extraction succeeds
exactly when that whole span is valid JSON, and fails when no such span
exists.  In particular a response holding several complete top-level
objects yields a span covering all of them, which is not valid JSON, so
extraction fails instead of returning the first object. -/
theorem c2_parser_decodes_first_to_last_brace_span
    (p m s : Chars) (hp : ∀ c ∈ p, c ≠ '{') (hs : ∀ c ∈ s, c ≠ '}') :
    (extract_data_for_single_case (some (p ++ '{' :: (m ++ '}' :: s))) =
      jsonParse ('{' :: (m ++ ['}']))) ∧
    ∀ resp, regexJsonSpan resp = none →
      extract_data_for_single_case (some resp) = none := by
  constructor
  · have hfb : firstBrace (p ++ '{' :: (m ++ '}' :: s)) = some p.length :=
      firstBrace_append hp _
    have hlc : lastClose (p ++ '{' :: (m ++ '}' :: s)) =
        some ((p ++ '{' :: m).length) := by
      have h2 : p ++ '{' :: (m ++ '}' :: s) = (p ++ '{' :: m) ++ '}' :: s := by
        simp
      rw [h2, lastClose_append hs]
    have hlen : (p ++ '{' :: m).length = p.length + m.length + 1 := by
      simp only [List.length_append, List.length_cons]
      omega
    have hspan : regexJsonSpan (p ++ '{' :: (m ++ '}' :: s)) =
        some ('{' :: (m ++ ['}'])) := by
      unfold regexJsonSpan
      rw [hfb, hlc, hlen]
      show (if p.length < p.length + m.length + 1 then
          some (((p ++ '{' :: (m ++ '}' :: s)).drop p.length).take
            (p.length + m.length + 1 - p.length + 1))
        else none) = some ('{' :: (m ++ ['}']))
      rw [if_pos (by omega)]
      congr 1
      rw [List.drop_left]
      have harith : p.length + m.length + 1 - p.length + 1 = m.length + 1 + 1 := by
        omega
      rw [harith, List.take_succ_cons]
      congr 1
      rw [List.take_append 1]
      rfl
    have hne : (p ++ '{' :: (m ++ '}' :: s)).isEmpty = false := by simp
    show (if (p ++ '{' :: (m ++ '}' :: s)).isEmpty then none
      else match regexJsonSpan (p ++ '{' :: (m ++ '}' :: s)) with
        | none => none
        | some block => jsonParse block) = jsonParse ('{' :: (m ++ ['}']))
    rw [hspan]
    simp [hne]
  · intro resp hnone
    show (if resp.isEmpty then none
      else match regexJsonSpan resp with
        | none => none
        | some block => jsonParse block) = none
    by_cases hemp : resp.isEmpty = true
    · simp [hemp]
    · simp [hemp, hnone]

/-- Witness for C2 (amended): on the two-object response the located
span is the whole response, so extraction agrees with decoding the full
string, which fails. -/
theorem c2_parser_decodes_first_to_last_brace_span_witness :
    extract_data_for_single_case (some "\x7b\"a\":1\x7d\x7b\"b\":2\x7d".data) =
      jsonParse "\x7b\"a\":1\x7d\x7b\"b\":2\x7d".data := by
  have h := (c2_parser_decodes_first_to_last_brace_span []
      "\"a\":1\x7d\x7b\"b\":2".data [] (fun c hc => absurd hc (List.not_mem_nil c))
      (fun c hc => absurd hc (List.not_mem_nil c))).1
  have he1 : ([] : Chars) ++ '{' :: ("\"a\":1\x7d\x7b\"b\":2".data ++ '}' :: []) =
      "\x7b\"a\":1\x7d\x7b\"b\":2\x7d".data := by decide
  have he2 : '{' :: ("\"a\":1\x7d\x7b\"b\":2".data ++ ['}']) =
      "\x7b\"a\":1\x7d\x7b\"b\":2\x7d".data := by decide
  rw [he1, he2] at h
  exact h

/-- Claim C3 is refuted as stated: the pydantic model declares
`involved_courts`, `parties` and `referenced_laws` without defaults, so
a candidate that omits one of the array fields fails validation instead
of succeeding with the field defaulted to the empty sequence. -/
theorem c3_counterexample_missing_array_field_fails :
    legalCaseValidate
      [("document_type".data, JsonVal.str "d".data),
       (cnKey, JsonVal.str "1/2024".data),
       ("parties".data, JsonVal.arr []),
       ("referenced_laws".data, JsonVal.arr [])] = false := rfl

/-- Claim C3 (amended): the three array fields are required — any
validated candidate carries each of them as an explicitly present
array, so omitting one fails validation and nothing is defaulted —
while the optional text fields do accept null or absence. -/
theorem c3_array_fields_required_optional_text_nullable :
    (∀ fields, legalCaseValidate fields = true →
      (∃ xs, jget fields "involved_courts".data = some (JsonVal.arr xs)) ∧
      (∃ xs, jget fields "parties".data = some (JsonVal.arr xs)) ∧
      (∃ xs, jget fields "referenced_laws".data = some (JsonVal.arr xs))) ∧
    legalCaseValidate
      [("document_type".data, JsonVal.str "d".data),
       (cnKey, JsonVal.str "1/2024".data),
       ("involved_courts".data, JsonVal.arr []),
       ("parties".data, JsonVal.arr []),
       ("referenced_laws".data, JsonVal.arr []),
       ("case_background_full".data, JsonVal.null)] = true ∧
    legalCaseValidate
      [("document_type".data, JsonVal.str "d".data),
       (cnKey, JsonVal.str "1/2024".data),
       ("involved_courts".data, JsonVal.arr []),
       ("parties".data, JsonVal.arr []),
       ("referenced_laws".data, JsonVal.arr [])] = true := by
  refine ⟨?_, rfl, rfl⟩
  intro fields hv
  unfold legalCaseValidate at hv
  simp only [Bool.and_eq_true] at hv
  obtain ⟨⟨⟨⟨⟨⟨⟨⟨⟨-, -⟩, h3⟩, h4⟩, h5⟩, -⟩, -⟩, -⟩, -⟩, -⟩ := hv
  exact ⟨reqListOf_arr h3, reqListOf_arr h4, reqListOf_arr h5⟩

/-- Claim C4 (confirmed): when every segment of the unchanged corpus has
a provisional identifier whose output file exists (every segment
succeeded in the first run), the second run without the force flag finds
each identifier in the existing-output set, selects no segment,
dispatches nothing to the worker pool, and writes no file. -/
theorem c4_second_run_selects_and_writes_nothing
    (segments files : List Chars)
    (hall : ∀ s ∈ segments, ∃ g, firstDocket s = some g ∧
      pyReplace g ['/'] ['-'] ++ jsonExt ∈ files) :
    (∀ s ∈ segments, ∀ g, firstDocket s = some g →
      g ∈ buildExistingIds files) ∧
    selectCases segments (buildExistingIds files) = [] ∧
    ∀ extract, run_processing segments (buildExistingIds files) extract =
      { success := 0, failed := 0, skipped_no_id := 0, files := [] } := by
  have hmem : ∀ s ∈ segments, ∀ g, firstDocket s = some g →
      g ∈ buildExistingIds files := by
    intro s hs g hg
    obtain ⟨g2, hg2, hf⟩ := hall s hs
    rw [hg] at hg2
    obtain rfl := Option.some.inj hg2
    unfold buildExistingIds
    rw [List.mem_map]
    refine ⟨pyReplace g ['/'] ['-'] ++ jsonExt, List.mem_filter.mpr ⟨hf, ?_⟩, ?_⟩
    · rw [List.isSuffixOf_iff_suffix]
      exact List.suffix_append _ _
    · exact derivedId_filename (firstDocket_shape hg)
  have hsel : selectCases segments (buildExistingIds files) = [] := by
    unfold selectCases
    rw [List.filterMap_eq_nil_iff]
    intro s hs
    by_cases hstrip : pyStrip s = []
    · rw [if_pos hstrip]
    · rw [if_neg hstrip]
      obtain ⟨g, hg, -⟩ := hall s hs
      rw [hg]
      show (if g ∈ buildExistingIds files then none else some (pyStrip s)) = none
      rw [if_pos (hmem s hs g hg)]
  refine ⟨hmem, hsel, fun extract => ?_⟩
  unfold run_processing
  rw [hsel]
  rfl

/-- Witness for C4: a one-segment corpus whose output file already
exists is entirely filtered out on the re-run. -/
theorem c4_second_run_selects_and_writes_nothing_witness :
    selectCases ["Case 12/2024 foo".data]
        (buildExistingIds ["12-2024.json".data]) = [] ∧
    run_processing ["Case 12/2024 foo".data]
        (buildExistingIds ["12-2024.json".data]) (fun _ => none) =
      { success := 0, failed := 0, skipped_no_id := 0, files := [] } := by
  have h := c4_second_run_selects_and_writes_nothing ["Case 12/2024 foo".data]
      ["12-2024.json".data] (by
        intro s hs
        rw [List.mem_singleton] at hs
        subst hs
        exact ⟨"12/2024".data, by decide, by decide⟩)
  exact ⟨h.2.1, h.2.2 _⟩

/-! Unfolding equations for the repair pass. -/

theorem run_repair_nil :
    run_verification_and_repair [] = .ok ([], 0, 0) := rfl

theorem run_repair_cons_unsel (fname : Chars) (content : Option JsonVal)
    (rest : List (Chars × Option JsonVal)) (h : ¬ repairSelects fname = true) :
    run_verification_and_repair ((fname, content) :: rest) =
      match run_verification_and_repair rest with
      | .ok (d, v, r) => .ok ((fname, content) :: d, v, r)
      | .error e => .error e := by
  simp only [run_verification_and_repair, if_neg h]

theorem run_repair_cons_none (fname : Chars)
    (rest : List (Chars × Option JsonVal)) (h : repairSelects fname = true) :
    run_verification_and_repair ((fname, none) :: rest) =
      match run_verification_and_repair rest with
      | .ok (d, v, r) => .ok ((fname, none) :: d, v, r)
      | .error e => .error e := by
  simp only [run_verification_and_repair, if_pos h]

theorem run_repair_cons_some (fname : Chars) (j : JsonVal)
    (rest : List (Chars × Option JsonVal)) (h : repairSelects fname = true) :
    run_verification_and_repair ((fname, some j) :: rest) =
      match repairFile fname j with
      | .error e => .error e
      | .ok (j2, repaired) =>
        match run_verification_and_repair rest with
        | .ok (d, v, r) =>
          if repaired then .ok ((fname, some j2) :: d, v, r + 1)
          else .ok ((fname, some j2) :: d, v + 1, r)
        | .error e => .error e := by
  simp only [run_verification_and_repair, if_pos h]

/-- Claim C5 is refuted as stated: for an output directory holding a
file whose name does not derive a pattern-valid identifier, the repair
pass rewrites `case_number` to the invalid derived identifier on every
run, so the second run reports `repaired_count = 1`, not `0`. -/
theorem c5_counterexample_underivable_filename_rerepaired :
    run_verification_and_repair [("abc.json".data, some (JsonVal.obj []))] =
      .ok ([("abc.json".data,
        some (JsonVal.obj [(cnKey, JsonVal.str "abc".data)]))], 0, 1) ∧
    run_verification_and_repair
        [("abc.json".data,
          some (JsonVal.obj [(cnKey, JsonVal.str "abc".data)]))] =
      .ok ([("abc.json".data,
        some (JsonVal.obj [(cnKey, JsonVal.str "abc".data)]))], 0, 1) :=
  ⟨rfl, rfl⟩

/-- Claim C5 (amended): the repair pass is idempotent on every directory
whose examined filenames derive pattern-valid identifiers — which holds
for all pipeline-written files, whose names are the filesystem-safe
transform of a docket identifier — and whose decodable contents are
objects: a second run repairs nothing, leaves every file unchanged, and
counts every examined file as valid. -/
theorem c5_repair_idempotent_on_derivable_names :
    ∀ (dir dir1 : List (Chars × Option JsonVal)) (v1 r1 : Nat),
    (∀ p ∈ dir, repairSelects p.1 = true →
      codePatternMatch (derivedId p.1) = true) →
    (∀ p ∈ dir, repairSelects p.1 = true → ∀ j, p.2 = some j →
      ∃ fields, j = JsonVal.obj fields) →
    run_verification_and_repair dir = .ok (dir1, v1, r1) →
    run_verification_and_repair dir1 = .ok (dir1, v1 + r1, 0) := by
  intro dir
  induction dir with
  | nil =>
    intro dir1 v1 r1 _ _ h1
    have h2 : (Except.ok (([] : List (Chars × Option JsonVal)), 0, 0) :
        Except Unit (List (Chars × Option JsonVal) × Nat × Nat)) =
        .ok (dir1, v1, r1) := h1
    cases h2
    exact rfl
  | cons p rest ih =>
    intro dir1 v1 r1 hname hobj h1
    obtain ⟨fname, content⟩ := p
    have hnamer : ∀ q ∈ rest, repairSelects q.1 = true →
        codePatternMatch (derivedId q.1) = true :=
      fun q hq => hname q (List.mem_cons_of_mem _ hq)
    have hobjr : ∀ q ∈ rest, repairSelects q.1 = true → ∀ j, q.2 = some j →
        ∃ fields, j = JsonVal.obj fields :=
      fun q hq => hobj q (List.mem_cons_of_mem _ hq)
    by_cases hsel : repairSelects fname = true
    · cases content with
      | none =>
        rw [run_repair_cons_none fname rest hsel] at h1
        cases hrest : run_verification_and_repair rest with
        | error e => rw [hrest] at h1; cases h1
        | ok t =>
          obtain ⟨d, v, r⟩ := t
          rw [hrest] at h1
          cases h1
          rw [run_repair_cons_none fname d hsel,
            ih d _ _ hnamer hobjr hrest]
      | some j =>
        obtain ⟨fields, rfl⟩ :=
          hobj (fname, some j) (List.mem_cons_self _ _) hsel j rfl
        rw [run_repair_cons_some fname (JsonVal.obj fields) rest hsel] at h1
        have hpat : codePatternMatch (derivedId fname) = true :=
          hname (fname, some (JsonVal.obj fields)) (List.mem_cons_self _ _) hsel
        rcases hro : repairFile fname (JsonVal.obj fields) with e | t
        · rw [hro] at h1; cases h1
        · obtain ⟨j2, repaired⟩ := t
          rw [hro] at h1
          cases hrest : run_verification_and_repair rest with
          | error e => rw [hrest] at h1; cases h1
          | ok t2 =>
            obtain ⟨d, v, r⟩ := t2
            rw [hrest] at h1
            have hstab := repairFile_stable fname fields j2 repaired hpat hro
            have ihh := ih d v r hnamer hobjr hrest
            cases repaired with
            | true =>
              have h1b : (Except.ok ((fname, some j2) :: d, v, r + 1) :
                  Except Unit (List (Chars × Option JsonVal) × Nat × Nat)) =
                  .ok (dir1, v1, r1) := h1
              have hinj := Except.ok.inj h1b
              simp only [Prod.mk.injEq] at hinj
              obtain ⟨rfl, rfl, rfl⟩ := hinj
              rw [run_repair_cons_some fname j2 d hsel, hstab, ihh]
              show (Except.ok ((fname, some j2) :: d, v + r + 1, 0) :
                Except Unit (List (Chars × Option JsonVal) × Nat × Nat)) =
                .ok ((fname, some j2) :: d, v + (r + 1), 0)
              rfl
            | false =>
              have h1b : (Except.ok ((fname, some j2) :: d, v + 1, r) :
                  Except Unit (List (Chars × Option JsonVal) × Nat × Nat)) =
                  .ok (dir1, v1, r1) := h1
              have hinj := Except.ok.inj h1b
              simp only [Prod.mk.injEq] at hinj
              obtain ⟨rfl, rfl, rfl⟩ := hinj
              rw [run_repair_cons_some fname j2 d hsel, hstab, ihh]
              show (Except.ok ((fname, some j2) :: d, v + r + 1, 0) :
                Except Unit (List (Chars × Option JsonVal) × Nat × Nat)) =
                .ok ((fname, some j2) :: d, v + 1 + r, 0)
              have harith : v + r + 1 = v + 1 + r := by omega
              rw [harith]
    · rw [run_repair_cons_unsel fname content rest hsel] at h1
      cases hrest : run_verification_and_repair rest with
      | error e => rw [hrest] at h1; cases h1
      | ok t =>
        obtain ⟨d, v, r⟩ := t
        rw [hrest] at h1
        cases h1
        rw [run_repair_cons_unsel fname content d hsel,
          ih d _ _ hnamer hobjr hrest]

/-- Witness for C5 (amended): a directory with one pipeline-named file
whose record lacks a case number; the first run repairs it, the second
run repairs nothing and leaves the directory unchanged. -/
theorem c5_repair_idempotent_on_derivable_names_witness :
    run_verification_and_repair
        [("12-2024.json".data, some (JsonVal.obj []))] =
      .ok ([("12-2024.json".data,
        some (JsonVal.obj [(cnKey, JsonVal.str "12/2024".data)]))], 0, 1) ∧
    run_verification_and_repair
        [("12-2024.json".data,
          some (JsonVal.obj [(cnKey, JsonVal.str "12/2024".data)]))] =
      .ok ([("12-2024.json".data,
        some (JsonVal.obj [(cnKey, JsonVal.str "12/2024".data)]))], 1, 0) := by
  refine ⟨rfl, ?_⟩
  exact c5_repair_idempotent_on_derivable_names
    [("12-2024.json".data, some (JsonVal.obj []))]
    [("12-2024.json".data,
      some (JsonVal.obj [(cnKey, JsonVal.str "12/2024".data)]))] 0 1
    (by decide)
    (by
      intro p hp hsel j hj
      rw [List.mem_singleton] at hp
      subst hp
      cases hj
      exact ⟨[], rfl⟩)
    rfl

/-- Claim C6 (confirmed): when the retrieval step returns zero
documents — or no result dict at all — the memo generator returns no
memorandum and an empty source list, and the LLM completion call is
never invoked. -/
theorem c6_no_results_short_circuits_llm
    (case_facts : Chars) (search_results : Option SearchResults)
    (llm : Chars → Option Chars)
    (h : search_results = none ∨ ∃ r, search_results = some r ∧
      (r.documents = [] ∨ r.documents.head? = some [])) :
    generate_memo case_facts search_results llm = (none, [], false) := by
  rcases h with rfl | ⟨r, rfl, h⟩
  · rfl
  · obtain ⟨docs, metas⟩ := r
    rcases h with h | h
    · have h2 : docs = [] := h
      subst h2
      rfl
    · have h2 : docs.head? = some [] := h
      cases docs with
      | nil => rfl
      | cons d0 drest =>
        have h3 : d0 = [] := by simpa using h2
        subst h3
        rfl

/-- Witness for C6: a query whose retrieval returns an empty document
list produces no memo, no sources, and no LLM call, whatever the LLM
would have answered. -/
theorem c6_no_results_short_circuits_llm_witness :
    generate_memo "facts".data
      (some { documents := [[]], metadatas := [[]] })
      (fun _ => some "memo".data) = (none, [], false) :=
  c6_no_results_short_circuits_llm "facts".data
    (some { documents := [[]], metadatas := [[]] })
    (fun _ => some "memo".data)
    (Or.inr ⟨_, rfl, Or.inr rfl⟩)

/-! Helper equations for `add_data`. -/

theorem count_eq_one_of_nodup_mem {l : List Chars} {x : Chars}
    (hnd : l.Nodup) (hx : x ∈ l) : l.count x = 1 := by
  induction l with
  | nil => cases hx
  | cons a l ih =>
    rw [List.count_cons]
    rcases List.mem_cons.mp hx with rfl | hx2
    · have hnotin : x ∉ l := (List.nodup_cons.mp hnd).1
      rw [List.count_eq_zero.mpr hnotin]
      simp
    · have hne : x ≠ a := by
        rintro rfl
        exact (List.nodup_cons.mp hnd).1 hx2
      rw [ih (List.nodup_cons.mp hnd).2 hx2]
      simp [Ne.symm hne]

theorem add_data_snd {α : Type} (store records : List (Chars × α)) :
    (add_data store records).2 =
      (records.filter (fun r => !is_id_exist store r.1)).length := by
  unfold add_data
  split
  · next hemp => rw [List.isEmpty_iff.mp hemp]; rfl
  · rfl

theorem add_data_all_exist {α : Type} (store records : List (Chars × α))
    (h : ∀ r ∈ records, is_id_exist store r.1 = true) :
    add_data store records = (store, 0) := by
  have hfil : records.filter (fun r => !is_id_exist store r.1) = [] :=
    List.filter_eq_nil_iff.mpr (fun r hr => by simp [h r hr])
  unfold add_data
  rw [hfil]
  rfl

/-- Claim C7 (confirmed): with key-unique inputs, indexing skips every
id already stored and never overwrites: after one `add_data` call every
incoming id is stored exactly once, the call inserts exactly the
records whose ids were new, and a second call with the same records
inserts zero records and leaves the store unchanged. -/
theorem c7_add_data_duplicate_safe {α : Type}
    (store records : List (Chars × α))
    (hstore : (store.map Prod.fst).Nodup)
    (hrecs : (records.map Prod.fst).Nodup) :
    (add_data (add_data store records).1 records).2 = 0 ∧
    (add_data (add_data store records).1 records).1 =
      (add_data store records).1 ∧
    (add_data store records).2 =
      (records.filter (fun r => !is_id_exist store r.1)).length ∧
    ((add_data store records).1.map Prod.fst).Nodup ∧
    ∀ rec ∈ records,
      ((add_data store records).1.map Prod.fst).count rec.1 = 1 := by
  have hfst := add_data_fst store records
  have hnewsub : (records.filter (fun r => !is_id_exist store r.1)).Sublist
      records := List.filter_sublist records
  have hnewids : ((records.filter (fun r => !is_id_exist store r.1)).map
      Prod.fst).Nodup := hrecs.sublist (hnewsub.map Prod.fst)
  have hdisj : ∀ x ∈ store.map Prod.fst,
      x ∉ (records.filter (fun r => !is_id_exist store r.1)).map Prod.fst := by
    intro x hxs hxn
    obtain ⟨r, hr, hre⟩ := List.mem_map.mp hxn
    have hcond := (List.mem_filter.mp hr).2
    rw [Bool.not_eq_true'] at hcond
    rw [hre] at hcond
    rw [(is_id_exist_iff store x).mpr hxs] at hcond
    cases hcond
  have hmem_s1 : ∀ rec ∈ records,
      rec.1 ∈ (add_data store records).1.map Prod.fst := by
    intro rec hrec
    rw [hfst, List.map_append, List.mem_append]
    by_cases hex : is_id_exist store rec.1 = true
    · exact Or.inl ((is_id_exist_iff store rec.1).mp hex)
    · refine Or.inr (List.mem_map_of_mem Prod.fst (List.mem_filter.mpr
        ⟨hrec, ?_⟩))
      rw [Bool.not_eq_true] at hex
      simp [hex]
  have hsecond := add_data_all_exist (add_data store records).1 records
    (fun r hr => (is_id_exist_iff _ _).mpr (hmem_s1 r hr))
  refine ⟨by rw [hsecond], by rw [hsecond], add_data_snd store records, ?_, ?_⟩
  · rw [hfst, List.map_append]
    exact hstore.append hnewids hdisj
  · intro rec hrec
    rw [hfst, List.map_append, List.count_append]
    by_cases hex : is_id_exist store rec.1 = true
    · have hmem := (is_id_exist_iff store rec.1).mp hex
      have h1 : (store.map Prod.fst).count rec.1 = 1 :=
        count_eq_one_of_nodup_mem hstore hmem
      have h0 : ((records.filter (fun r => !is_id_exist store r.1)).map
          Prod.fst).count rec.1 = 0 := by
        rw [List.count_eq_zero]
        exact hdisj rec.1 hmem
      omega
    · have h0 : (store.map Prod.fst).count rec.1 = 0 := by
        rw [List.count_eq_zero]
        intro hcontra
        exact hex ((is_id_exist_iff store rec.1).mpr hcontra)
      have hmemnew : rec.1 ∈ (records.filter
          (fun r => !is_id_exist store r.1)).map Prod.fst := by
        refine List.mem_map_of_mem Prod.fst (List.mem_filter.mpr ⟨hrec, ?_⟩)
        rw [Bool.not_eq_true] at hex
        simp [hex]
      have h1 : ((records.filter (fun r => !is_id_exist store r.1)).map
          Prod.fst).count rec.1 = 1 :=
        count_eq_one_of_nodup_mem hnewids hmemnew
      omega

/-- Witness for C7: indexing two fresh records into an empty store, a
second identical call inserts zero and each id is stored once. -/
theorem c7_add_data_duplicate_safe_witness :
    (add_data (add_data ([] : List (Chars × Nat))
        [("a".data, 0), ("b".data, 1)]).1 [("a".data, 0), ("b".data, 1)]).2
      = 0 ∧
    ((add_data ([] : List (Chars × Nat))
        [("a".data, 0), ("b".data, 1)]).1.map Prod.fst).count "a".data = 1 := by
  have h := c7_add_data_duplicate_safe ([] : List (Chars × Nat))
    [("a".data, 0), ("b".data, 1)] (by simp) (by decide)
  exact ⟨h.1, h.2.2.2.2 ("a".data, 0) (by simp)⟩

/-- Witness for C3 (amended): the requiredness consequence evaluated at
a concrete valid candidate. -/
theorem c3_array_fields_required_optional_text_nullable_witness :
    ∃ xs, jget
      [("document_type".data, JsonVal.str "d".data),
       (cnKey, JsonVal.str "1/2024".data),
       ("involved_courts".data, JsonVal.arr []),
       ("parties".data, JsonVal.arr []),
       ("referenced_laws".data, JsonVal.arr [])]
      "involved_courts".data = some (JsonVal.arr xs) :=
  (c3_array_fields_required_optional_text_nullable.1
    [("document_type".data, JsonVal.str "d".data),
     (cnKey, JsonVal.str "1/2024".data),
     ("involved_courts".data, JsonVal.arr []),
     ("parties".data, JsonVal.arr []),
     ("referenced_laws".data, JsonVal.arr [])] rfl).1

/-- Claim C8 is refuted as stated: the output filename is built from the
segment's provisional identifier before extraction runs, not from the
record's final `case_number`.  When the model returns a pattern-valid
case number different from the provisional identifier — here a value
with a prefix — the stored `case_number` keeps the prefix while the
filename does not, so the filename is not the filesystem-safe transform
of the stored case number. -/
theorem c8_counterexample_filename_differs_from_final_case_number :
    (process_case_worker "Case 1234/2024 text".data
        (some [("document_type".data, JsonVal.str "d".data),
               (cnKey, JsonVal.str "X.555/2023".data),
               ("involved_courts".data, JsonVal.arr []),
               ("parties".data, JsonVal.arr []),
               ("referenced_laws".data, JsonVal.arr [])])).status =
      WStatus.success ∧
    (process_case_worker "Case 1234/2024 text".data
        (some [("document_type".data, JsonVal.str "d".data),
               (cnKey, JsonVal.str "X.555/2023".data),
               ("involved_courts".data, JsonVal.arr []),
               ("parties".data, JsonVal.arr []),
               ("referenced_laws".data, JsonVal.arr [])])).written =
      some ("1234-2024.json".data,
        JsonVal.obj [("document_type".data, JsonVal.str "d".data),
               (cnKey, JsonVal.str "X.555/2023".data),
               ("involved_courts".data, JsonVal.arr []),
               ("parties".data, JsonVal.arr []),
               ("referenced_laws".data, JsonVal.arr [])]) ∧
    pyReplace "X.555/2023".data ['/'] ['-'] ++ jsonExt ≠ "1234-2024.json".data :=
  ⟨rfl, rfl, by decide⟩

/-- Claim C8 (amended): a successful worker writes exactly one file, and
its name is the filesystem-safe transform of the segment's provisional
identifier — the first `digits/year` match in the segment text — with
`.json` appended; any non-success outcome writes nothing.  The stored
`case_number` agrees with the filename only when the accepted value
equals the provisional identifier. -/
theorem c8_output_file_named_by_provisional_id
    (text : Chars) (json_data : Option (List (Chars × JsonVal))) (g : Chars)
    (hg : firstDocket text = some g) :
    ((process_case_worker text json_data).status = .success →
      ∃ content, (process_case_worker text json_data).written =
        some (pyReplace g ['/'] ['-'] ++ jsonExt, content)) ∧
    ((process_case_worker text json_data).status ≠ .success →
      (process_case_worker text json_data).written = none) := by
  cases json_data with
  | none =>
    rw [process_case_worker_none_data text g hg]
    exact ⟨fun h => absurd h (by decide), fun _ => rfl⟩
  | some fields =>
    rw [process_case_worker_some text g hg fields]
    by_cases hval : legalCaseValidate (workerFields g fields) = true
    · rw [if_pos hval]
      exact ⟨fun _ => ⟨JsonVal.obj (workerFields g fields), rfl⟩,
        fun h => absurd rfl h⟩
    · rw [if_neg hval]
      exact ⟨fun h => absurd h (by decide), fun _ => rfl⟩

/-- Witness for C8 (amended): a successful extraction writes the single
file named after the provisional identifier of its segment. -/
theorem c8_output_file_named_by_provisional_id_witness :
    ∃ content,
      (process_case_worker "Case 12/2024 x".data
        (some [("document_type".data, JsonVal.str "d".data),
               (cnKey, JsonVal.str "12/2024".data),
               ("involved_courts".data, JsonVal.arr []),
               ("parties".data, JsonVal.arr []),
               ("referenced_laws".data, JsonVal.arr [])])).written =
        some (pyReplace "12/2024".data ['/'] ['-'] ++ jsonExt, content) :=
  (c8_output_file_named_by_provisional_id "Case 12/2024 x".data
    (some [("document_type".data, JsonVal.str "d".data),
           (cnKey, JsonVal.str "12/2024".data),
           ("involved_courts".data, JsonVal.arr []),
           ("parties".data, JsonVal.arr []),
           ("referenced_laws".data, JsonVal.arr [])])
    "12/2024".data (by decide)).1 rfl

/-- Claim C9 is refuted as stated: a non-empty segment containing no
docket substring is dropped by the scheduler's filter before dispatch
and is never counted, so the run reports `skipped_no_id = 0` although
one such segment exists. -/
theorem c9_counterexample_identifierless_segment_not_counted :
    (run_processing ["hello".data] [] (fun _ => none)).skipped_no_id = 0 ∧
    (["hello".data].filter
        (fun s => !(pyStrip s).isEmpty && (firstDocket s).isNone)).length = 1 :=
  ⟨rfl, rfl⟩

/-- Claim C9 (amended): segments with no docket substring are dropped
silently at the filter stage — they contribute nothing to the selected
list — and every dispatched segment still carries its docket match
after stripping, so the worker's `skipped_no_id` branch is unreachable
and the reported `skipped_no_id` count is `0` on every run. -/
theorem c9_skipped_no_id_always_zero (segments existing : List Chars)
    (extract : Chars → Option (List (Chars × JsonVal))) :
    (run_processing segments existing extract).skipped_no_id = 0 ∧
    ∀ s, firstDocket s = none →
      selectCases (s :: segments) existing = selectCases segments existing := by
  constructor
  · have hworkers : ∀ t ∈ selectCases segments existing,
        (process_case_worker t (extract t)).status ≠ .skipped_no_id := by
      intro t ht
      obtain ⟨s, g, hs, hg, rfl⟩ := selectCases_mem ht
      refine worker_status_not_skipped ?_
      rw [firstDocket_pyStrip, hg]
      rfl
    exact run_foldl_skipped (selectCases segments existing) extract
      { success := 0, failed := 0, skipped_no_id := 0, files := [] } hworkers
  · intro s hnone
    unfold selectCases
    simp only [List.filterMap_cons]
    by_cases hstrip : pyStrip s = []
    · rw [if_pos hstrip]
    · rw [if_neg hstrip, hnone]

/-- Witness for C9 (amended): a corpus with one identifier-less segment
reports zero skipped items, and prepending such a segment leaves the
selected list unchanged. -/
theorem c9_skipped_no_id_always_zero_witness :
    (run_processing ["hello".data] [] (fun _ => none)).skipped_no_id = 0 ∧
    selectCases ["hello".data, "x 1/2024 y".data] [] =
      selectCases ["x 1/2024 y".data] [] := by
  have h1 := c9_skipped_no_id_always_zero ["hello".data] [] (fun _ => none)
  have h2 := c9_skipped_no_id_always_zero ["x 1/2024 y".data] [] (fun _ => none)
  exact ⟨h1.1, h2.2 "hello".data (by decide)⟩

/-- Claim C10 (confirmed): the repair pass catches only JSON decode and
I/O errors per file, so a record file whose content is valid JSON with a
non-object top-level value — for example an array — raises on
`data.get("case_number", "")` and the uncaught error aborts the entire
pass, whatever well-formed files precede or follow it. -/
theorem c10_repair_pass_aborts_on_non_object_file :
    ∀ (pre : List (Chars × Option JsonVal)) (fname : Chars) (j : JsonVal)
      (post : List (Chars × Option JsonVal)),
    repairSelects fname = true →
    (∀ fields, j ≠ JsonVal.obj fields) →
    (∀ p ∈ pre, repairSelects p.1 = true → ∀ jv, p.2 = some jv →
      ∃ fields, jv = JsonVal.obj fields) →
    run_verification_and_repair (pre ++ (fname, some j) :: post) = .error () := by
  intro pre
  induction pre with
  | nil =>
    intro fname j post hsel hnot hpre
    rw [List.nil_append, run_repair_cons_some fname j post hsel,
      repairFile_non_object fname j hnot]
  | cons p pre2 ih =>
    intro fname j post hsel hnot hpre
    obtain ⟨f2, c2⟩ := p
    have ihh := ih fname j post hsel hnot
      (fun q hq => hpre q (List.mem_cons_of_mem _ hq))
    rw [List.cons_append]
    by_cases hsel2 : repairSelects f2 = true
    · cases c2 with
      | none => rw [run_repair_cons_none f2 _ hsel2, ihh]
      | some jv =>
        obtain ⟨fields, rfl⟩ :=
          hpre (f2, some jv) (List.mem_cons_self _ _) hsel2 jv rfl
        rw [run_repair_cons_some f2 (JsonVal.obj fields) _ hsel2]
        rcases repairFile_obj f2 fields with ⟨s, -, -, heq⟩ | heq <;>
          rw [heq, ihh]
    · rw [run_repair_cons_unsel f2 c2 _ hsel2, ihh]

/-- Witness for C10: one selected file holding a top-level JSON array
aborts the pass. -/
theorem c10_repair_pass_aborts_on_non_object_file_witness :
    run_verification_and_repair [("a.json".data, some (JsonVal.arr []))] =
      .error () :=
  c10_repair_pass_aborts_on_non_object_file [] "a.json".data (JsonVal.arr [])
    [] (by decide) (fun fields h => JsonVal.noConfusion h)
    (fun p hp => absurd hp (List.not_mem_nil p))

end LegalPipeline
